import Mathlib

/-!
Verification development for the news-aggregation pipeline
(FastAPI backend: `backend/api/routes.py`, `backend/services/llm_service.py`,
`backend/services/news_aggregator.py`, `backend/utils/json_repair.py`).

The Python code is shallowly embedded: dict-based article records become a
Lean structure with optional fields, the stateful rate-limit flag becomes
explicit state passing, network collaborators become function parameters,
and exceptions become `Option`/explicit error results.
-/

namespace NewsPipeline

/-- Characters that are written via their code points to keep string
literals free of quoting pitfalls. -/
def lbrace : Char := Char.ofNat 123

def rbrace : Char := Char.ofNat 125

def lbrack : Char := Char.ofNat 91

def rbrack : Char := Char.ofNat 93

def squote : Char := Char.ofNat 39

def dquote : Char := Char.ofNat 34

def bslash : Char := Char.ofNat 92

/-- Embedding of a pipeline article record (the ad-hoc dicts built in
`news_aggregator.py` and consumed in `routes.py`).  Fields that a dict may
lack (`ai_score`, `reasoning`, set only during ranking) are `Option`s;
`published_at` uses `""` for the missing/falsy case, matching
`article.get("published_at")` truthiness checks. -/
structure Article where
  title : String
  content : String
  url : String
  source : String
  published_at : String
  ai_score : Option Int := none
  reasoning : Option String := none
deriving DecidableEq, Repr

/-- Embedding of a source record as produced by
`LLMService._get_fallback_sources` / the LLM selection call.  The Python
key `type` is embedded as `stype`. -/
structure Source where
  name : String
  stype : String
  relevanceScore : Int
  credibilityScore : Int
  reasoning : String
deriving DecidableEq, Repr

/-- Embedding of the LLM configuration relevant to the disabled check
(`if not self.config or not getattr(self.config, "api_key", None)`). -/
structure LLMConfig where
  api_key : String
  model : String
deriving DecidableEq, Repr

/-- The Python truthiness test used throughout `llm_service.py`:
the service is disabled when `self.config` is `None` or its `api_key`
is empty/absent. -/
def llmDisabled : Option LLMConfig → Bool
  | none => true
  | some c => c.api_key = ""

/-- Boolean substring test, the embedding of Python's `needle in hay`
for strings. -/
def strContainsSub (hay needle : String) : Bool :=
  let h := hay.toList
  let n := needle.toList
  (List.range (h.length + 1)).any (fun i => n.isPrefixOf (h.drop i))

/-- Embedding of Python's `str.lower()` (ASCII range, which covers every
string the pipeline lowers). -/
def pyLower (s : String) : String :=
  String.mk (s.toList.map Char.toLower)

/-- Embedding of Python's `str.strip()` with no argument: remove leading
and trailing whitespace. -/
def pyStrip (s : String) : String :=
  String.mk (((s.toList.dropWhile Char.isWhitespace).reverse.dropWhile
    Char.isWhitespace).reverse)

/-- One step of the word splitter behind `pyWords`: running from the
right, whitespace flushes the word being built. -/
def wordStep (c : Char) (acc : List (List Char) × List Char) :
    List (List Char) × List Char :=
  if c.isWhitespace then
    if acc.2.isEmpty then acc else (acc.2 :: acc.1, [])
  else (acc.1, c :: acc.2)

/-- Embedding of Python's `str.split()` with no argument: split on runs
of whitespace, discarding empty pieces. -/
def pyWords (s : String) : List String :=
  let r := s.toList.foldr wordStep ([], [])
  (if r.2.isEmpty then r.1 else r.2 :: r.1).map String.mk

/-- Stable insert used by `sortDesc`: `a` is placed before the first
element it compares `ge` to, so earlier input elements precede equal-key
later ones, matching Python's stable `sort(..., reverse=True)`. -/
def insertDesc (ge : α → α → Bool) (a : α) : List α → List α
  | [] => [a]
  | b :: bs => if ge a b then a :: b :: bs else b :: insertDesc ge a bs

/-- Stable descending sort, the embedding of Python's
`list.sort(key=..., reverse=True)` / `sorted(..., reverse=True)` where
`ge a b` holds when `key a >= key b`. -/
def sortDesc (ge : α → α → Bool) : List α → List α
  | [] => []
  | a :: as => insertDesc ge a (sortDesc ge as)

theorem insertDesc_perm (ge : α → α → Bool) (a : α) (l : List α) :
    List.Perm (insertDesc ge a l) (a :: l) := by
  induction l with
  | nil => simp [insertDesc]
  | cons b bs ih =>
    by_cases h : ge a b = true
    · have heq : insertDesc ge a (b :: bs) = a :: b :: bs := by
        simp [insertDesc, h]
      rw [heq]
    · have heq : insertDesc ge a (b :: bs) = b :: insertDesc ge a bs := by
        simp [insertDesc, h]
      rw [heq]
      exact (List.Perm.cons b ih).trans (List.Perm.swap a b bs)

theorem sortDesc_perm (ge : α → α → Bool) (l : List α) :
    List.Perm (sortDesc ge l) l := by
  induction l with
  | nil => simp [sortDesc]
  | cons a as ih =>
    exact (insertDesc_perm ge a (sortDesc ge as)).trans (List.Perm.cons a ih)

theorem mem_sortDesc {ge : α → α → Bool} {a : α} {l : List α} :
    a ∈ sortDesc ge l ↔ a ∈ l :=
  (sortDesc_perm ge l).mem_iff

theorem insertDesc_pairwise (ge : α → α → Bool)
    (htot : ∀ x y, ge x y = true ∨ ge y x = true)
    (htrans : ∀ x y z, ge x y = true → ge y z = true → ge x z = true)
    (a : α) (l : List α)
    (hl : l.Pairwise (fun x y => ge x y = true)) :
    (insertDesc ge a l).Pairwise (fun x y => ge x y = true) := by
  induction l with
  | nil => simp [insertDesc]
  | cons b bs ih =>
    rcases List.pairwise_cons.mp hl with ⟨hb, hbs⟩
    by_cases h : ge a b = true
    · simp only [insertDesc, if_pos h]
      refine List.pairwise_cons.mpr ⟨?_, hl⟩
      intro y hy
      rcases List.mem_cons.mp hy with rfl | hy
      · exact h
      · exact htrans a b y h (hb y hy)
    · simp only [insertDesc, if_neg h]
      refine List.pairwise_cons.mpr ⟨?_, ih hbs⟩
      intro y hy
      rcases List.mem_cons.mp ((insertDesc_perm ge a bs).mem_iff.mp hy) with rfl | hyb
      · rcases htot y b with hyb | hby
        · exact absurd hyb h
        · exact hby
      · exact hb y hyb

theorem sortDesc_pairwise (ge : α → α → Bool)
    (htot : ∀ x y, ge x y = true ∨ ge y x = true)
    (htrans : ∀ x y z, ge x y = true → ge y z = true → ge x z = true)
    (l : List α) :
    (sortDesc ge l).Pairwise (fun x y => ge x y = true) := by
  induction l with
  | nil => simp [sortDesc]
  | cons a as ih => exact insertDesc_pairwise ge htot htrans a (sortDesc ge as) ih

/-! ## Orchestrator (`backend/api/routes.py`, `generate_news`) -/

/-- Embedding of the synonym table hard-coded in `is_article_relevant`
(routes.py): both `"artificial intelligence"` and `"ai"` map to the same
four synonyms; every other topic has no registered synonyms. -/
def synonym_map (t : String) : Option (List String) :=
  if t = "artificial intelligence" ∨ t = "ai" then
    some ["artificial intelligence", "ai", "machine learning", "ml"]
  else none

/-- Embedding of `is_article_relevant` (routes.py): an article is relevant
when the lower-cased `title ++ " " ++ content` contains one of each topic's
synonyms (`synonym_map.get(t_lower, [t_lower])`) as a substring; empty
topic lists accept everything; whitespace-only topics are skipped. -/
def is_article_relevant (a : Article) (topics : List String) : Bool :=
  if topics.isEmpty then true
  else
    let combined := pyLower (a.title ++ " " ++ a.content)
    topics.any fun t =>
      let tl := pyStrip (pyLower t)
      if tl = "" then false
      else ((synonym_map tl).getD [tl]).any fun syn => strContainsSub combined syn

/-- The recency window used throughout: 7 days, in seconds (timestamps are
embedded as integer seconds). -/
def seven_days : Int := 7 * 86400

/-- Embedding of `is_recent_article` (routes.py).  `parseDate` models
`datetime.fromisoformat(published.rstrip("Z"))`, `none` standing for the
raised `ValueError`; a falsy (empty) `published_at` is rejected first, and
a parsed timestamp must satisfy `dt >= now - 7 days`. -/
def is_recent_article (parseDate : String → Option Int) (now : Int)
    (a : Article) : Bool :=
  if a.published_at = "" then false
  else
    match parseDate a.published_at with
    | none => false
    | some dt => dt ≥ now - seven_days

/-- Embedding of the topic normalization at the top of `generate_news`
(routes.py): any topic whose lower-cased, trimmed form is `"ai"` is
replaced by `"artificial intelligence"`. -/
def transformTopics (topics : List String) : List String :=
  topics.map fun t => if pyStrip (pyLower t) = "ai" then "artificial intelligence" else t

/-- The dedupe key of the validation loop:
`(article.get("title") or "").strip().lower()`. -/
def normTitle (t : String) : String := pyLower (pyStrip t)

/-- One iteration of the per-article validation loop inside
`generate_news` (routes.py): the article is rejected if the target count
is already reached, its `url` or normalized `title` is empty, its
normalized title duplicates an already-accepted one, it fails the
relevance check, or it fails the recency check; otherwise appended. -/
def acceptStep (parseDate : String → Option Int) (now : Int)
    (topics : List String) (desired : Nat)
    (acc : List Article) (a : Article) : List Article :=
  if acc.length ≥ desired then acc
  else if a.url = "" then acc
  else if normTitle a.title = "" then acc
  else if acc.any (fun e => normTitle e.title = normTitle a.title) then acc
  else if ¬ is_article_relevant a topics then acc
  else if ¬ is_recent_article parseDate now a then acc
  else acc ++ [a]

def processBatch (parseDate : String → Option Int) (now : Int)
    (topics : List String) (desired : Nat)
    (valid : List Article) (raw : List Article) : List Article :=
  raw.foldl (acceptStep parseDate now topics desired) valid

/-- `max_attempts = 5` in `generate_news` (routes.py). -/
def max_attempts : Nat := 5

/-- A recorded call to `news_aggregator.fetch_articles`: the topics and
count arguments passed. -/
structure FetchCall where
  topics : List String
  count : Nat
deriving DecidableEq, Repr

/-- One attempt of the accumulation loop of `generate_news` (routes.py):
skip when enough articles were already collected, otherwise compute the
over-fetch count (`3 × desired` on attempt 0, `2 × remaining` after),
record the call, and validate the returned batch; a failed fetch
(`none`, modelling a raised exception) is logged and skipped. -/
def fetchStep (parseDate : String → Option Int) (now : Int)
    (fetch : Nat → Nat → Option (List Article))
    (topics : List String) (desired : Nat)
    (st : List Article × List FetchCall) (attempt : Nat) :
    List Article × List FetchCall :=
  if st.1.length ≥ desired then st
  else
    let remaining := desired - st.1.length
    let fetch_count := if attempt = 0 then max 1 (desired * 3) else max 1 (remaining * 2)
    let calls := st.2 ++ [⟨topics, fetch_count⟩]
    match fetch attempt fetch_count with
    | none => (st.1, calls)
    | some raw => (processBatch parseDate now topics desired st.1 raw, calls)

/-- Embedding of the accumulation loop of `generate_news` (routes.py).
`fetch` abstracts `news_aggregator.fetch_articles` as a function of the
attempt index and requested count.  Returns the accumulated
`valid_articles` together with the trace of fetch calls issued. -/
def fetchLoop (parseDate : String → Option Int) (now : Int)
    (fetch : Nat → Nat → Option (List Article))
    (topics : List String) (desired : Nat) :
    List Article × List FetchCall :=
  (List.range max_attempts).foldl (fetchStep parseDate now fetch topics desired)
    ([], [])

/-- Result of the route handler: a successful JSON response or a raised
`HTTPException(status, detail)`. -/
inductive PipelineResult where
  | ok (articles : List Article) (total_count : Nat)
  | httpError (status : Nat) (detail : String)
deriving DecidableEq, Repr

/-- Outcome of a `generate_news` run together with a trace of the
arguments handed to each collaborator (which topic list went to source
selection, fetching, relevance filtering and ranking). -/
structure GenerateNewsOutcome where
  result : PipelineResult
  sourceTopics : List String
  fetchCalls : List FetchCall
  relevanceTopics : List String
  rankTopics : Option (List String)
  validArticles : List Article
deriving DecidableEq, Repr

/-- Embedding of `generate_news` (routes.py).  Collaborators are passed as
functions: `selectSources` models `groq_service.select_news_sources`,
`fetch` models `news_aggregator.fetch_articles` (per attempt), and `rank`
models `groq_service.analyze_and_rank_articles`.  Summaries and database
storage are abstracted: storage always succeeds, so the response carries
the ranked top articles with `total_count` equal to their number. -/
def generate_news (parseDate : String → Option Int) (now : Int)
    (selectSources : List String → String → List String → List Source)
    (fetch : Nat → Nat → Option (List Article))
    (rank : List Article → List String → List Article)
    (topics : List String) (region : String) (excluded : List String)
    (desired : Nat) : GenerateNewsOutcome :=
  let transformed := transformTopics topics
  let sources := selectSources transformed region excluded
  if sources.isEmpty then
    { result := .httpError 400 "No suitable news sources found"
      sourceTopics := transformed
      fetchCalls := []
      relevanceTopics := transformed
      rankTopics := none
      validArticles := [] }
  else
    let fl := fetchLoop parseDate now fetch transformed desired
    if fl.1.isEmpty then
      { result := .httpError 404 "No valid articles found for the specified criteria"
        sourceTopics := transformed
        fetchCalls := fl.2
        relevanceTopics := transformed
        rankTopics := none
        validArticles := fl.1 }
    else
      let top := (rank fl.1 topics).take desired
      { result := .ok top top.length
        sourceTopics := transformed
        fetchCalls := fl.2
        relevanceTopics := transformed
        rankTopics := some topics
        validArticles := fl.1 }

/-! ## LLM service (`backend/services/llm_service.py`) -/

/-- The static six-entry list hard-coded in
`LLMService._get_fallback_sources`. -/
def fallbackBaseSources : List Source :=
  [ { name := "Reuters", stype := "news_agency", relevanceScore := 95,
        credibilityScore := 98,
        reasoning := "Global news agency with exceptional credibility and comprehensive coverage" },
      { name := "Associated Press", stype := "news_agency", relevanceScore := 90,
        credibilityScore := 95,
        reasoning := "Reliable international news coverage with fact-checking standards" },
      { name := "BBC News", stype := "broadcaster", relevanceScore := 88,
        credibilityScore := 92,
        reasoning := "Comprehensive global news coverage with editorial standards" },
      { name := "NPR", stype := "broadcaster", relevanceScore := 86,
        credibilityScore := 91,
        reasoning := "High-quality journalism with in-depth analysis" },
      { name := "The Guardian", stype := "newspaper", relevanceScore := 84,
        credibilityScore := 89,
        reasoning := "Strong digital presence with investigative journalism" },
      { name := "Substack", stype := "newsletter_platform", relevanceScore := 82,
        credibilityScore := 85,
        reasoning := "Independent journalists and expert newsletters on specialized topics" } ]

/-- The region-specific entry appended for non-international regions
(`f"Regional coverage for {region}"`). -/
def localSource (region : String) : Source :=
  { name := "Local News Network", stype := "digital_native",
    relevanceScore := 85, credibilityScore := 80,
    reasoning := "Regional coverage for " ++ region }

/-- Embedding of `LLMService._get_fallback_sources`: the static list of
six sources, with the region-specific entry appended exactly when
`region != "international"`. -/
def get_fallback_sources (_topics : List String) (region : String) : List Source :=
  if region ≠ "international" then fallbackBaseSources ++ [localSource region]
  else fallbackBaseSources

/-- Embedding of the excluded-source filter in
`LLMService.select_news_sources`: keeps sources whose lower-cased name is
not among the lower-cased excluded names. -/
def filterExcluded (sources : List Source) (excluded : List String) : List Source :=
  sources.filter fun src => ¬ (excluded.map pyLower).contains (pyLower src.name)

/-- Embedding of `LLMService.select_news_sources`.  `llmSources` abstracts
the repaired-and-parsed `result.get("sources", [])` from the model;
`none` models any raised failure (network error, all models failing, JSON
parse failure), which the Python code catches and answers with the
fallback list.  With no configuration / API key the fallback list is
returned immediately without any request. -/
def select_news_sources (config : Option LLMConfig)
    (llmSources : Option (List Source))
    (topics : List String) (region : String) (excluded : List String) :
    List Source :=
  if llmDisabled config then get_fallback_sources topics region
  else
    match llmSources with
    | none => get_fallback_sources topics region
    | some sources => filterExcluded sources excluded

/-- Embedding of the per-article score computed by
`LLMService._fallback_scoring`: base 50, plus 10 for every topic whose
lower-cased form occurs in the lower-cased `title ++ " " ++ content`,
capped at 90 by `min(score, 90)`. -/
def fallback_score (a : Article) (topics : List String) : Int :=
  let text := pyLower (a.title ++ " " ++ a.content)
  min (50 + 10 * (topics.countP fun t => strContainsSub text (pyLower t) : Nat)) 90

/-- The per-article update of `_fallback_scoring`: attach the heuristic
score and the fixed reasoning string. -/
def scoreArticle (topics : List String) (a : Article) : Article :=
  { a with ai_score := some (fallback_score a topics)
           reasoning := some "Fallback score based on topic keyword match" }

/-- Comparator for the descending `ai_score` sorts
(`sorted(..., key=lambda x: x["ai_score"], reverse=True)` and
`final_articles.sort(key=lambda x: x.get("ai_score", 0), reverse=True)`). -/
def scoreGe (x y : Article) : Bool :=
  decide (x.ai_score.getD 0 ≥ y.ai_score.getD 0)

/-- Embedding of `LLMService._fallback_scoring`: scores every article
heuristically, attaches the fixed reasoning string, and stable-sorts
descending by `ai_score`. -/
def fallback_scoring (articles : List Article) (topics : List String) :
    List Article :=
  sortDesc scoreGe (articles.map (scoreArticle topics))

/-- Embedding of one record of the model's ranking response
(`result.get("articles", [])` in `analyze_and_rank_articles`).  The
`title` is used for matching; the optional fields model dict keys the
model may or may not emit, which override the original article's fields
in the `{**original, **ranked}` merge. -/
structure RankedRecord where
  title : String
  content : Option String := none
  url : Option String := none
  source : Option String := none
  published_at : Option String := none
  ai_score : Option Int := none
  reasoning : Option String := none
deriving DecidableEq, Repr

/-- Embedding of the dict merge `{**original, **ranked}`: every key the
ranked record carries overrides the original's value. -/
def mergeRanked (original : Article) (r : RankedRecord) : Article :=
  { title := r.title
    content := (r.content).getD original.content
    url := (r.url).getD original.url
    source := (r.source).getD original.source
    published_at := (r.published_at).getD original.published_at
    ai_score := match r.ai_score with
      | some s => some s
      | none => original.ai_score
    reasoning := match r.reasoning with
      | some s => some s
      | none => original.reasoning }

/-- Embedding of `LLMService.analyze_and_rank_articles`.  `llmRanked`
abstracts the parsed ranking response (`none` = any raised failure, which
falls back to heuristic scoring).  On the model path each returned record
is matched to the first original article with the same title (unmatched
records are dropped), merged with the model fields winning, and the
result is stable-sorted descending by `ai_score` (missing scores sort as
0).  No clamping is applied anywhere. -/
def analyze_and_rank_articles (config : Option LLMConfig)
    (llmRanked : Option (List RankedRecord))
    (articles : List Article) (topics : List String) : List Article :=
  if articles.isEmpty ∨ topics.isEmpty then fallback_scoring articles topics
  else if llmDisabled config then fallback_scoring articles topics
  else
    match llmRanked with
    | none => fallback_scoring articles topics
    | some ranked =>
      let finals := ranked.foldl
        (fun acc r =>
          match articles.find? (fun a => a.title = r.title) with
          | some original => acc ++ [mergeRanked original r]
          | none => acc)
        []
      sortDesc scoreGe finals

/-- The truncation fallback of `generate_article_summary`:
`" ".join(words[:40]) + ("..." if len(words) > 40 else "")`. -/
def truncate40 (content : String) : String :=
  let words := pyWords content
  String.intercalate " " (words.take 40) ++ (if words.length > 40 then "..." else "")

def bullet : Char := Char.ofNat 8226

/-- Embedding of `LLMService.generate_article_summary`.  `llmText`
abstracts the model's plain-text reply (`none` = request failure).  With
no configuration, or on failure, the naive 40-word truncation is
returned; on success the reply is stripped and leading dash/bullet/space
markers are removed (the `re.sub(r"^[\-\•\s]+", "", text)` call). -/
def generate_article_summary (config : Option LLMConfig)
    (llmText : Option String) (content : String) : String :=
  if llmDisabled config then truncate40 content
  else
    match llmText with
    | none => truncate40 content
    | some raw =>
      let text := pyStrip raw
      String.mk (text.toList.dropWhile fun c => c == '-' || c == bullet || c.isWhitespace)

/-! ## News aggregator (`backend/services/news_aggregator.py`) -/

/-- The process-wide mutable aggregator state: the
`newsapi_rate_limited` flag (reset only by process restart). -/
structure AggState where
  newsapi_rate_limited : Bool
deriving DecidableEq, Repr

/-- Abstraction of the HTTP response obtained for one API key in
`_fetch_global_articles` / `_fetch_local_headlines`: a 429, a 200 whose
parsed and recency-filtered article dicts are `items`, another status
code, or a raised network error (the `except` branch). -/
inductive KeyResp where
  | rate429
  | okResp (items : List Article)
  | badStatus (code : Nat)
  | netError
deriving DecidableEq, Repr

/-- Embedding of the key-rotation loop shared by `_fetch_global_articles`
and `_fetch_local_headlines`.  Returns
`(encountered_rate_limit, all_articles, requests issued)`:
empty keys are skipped without a request; a 429 or a network error tries
the next key; any other response clears `encountered_rate_limit` and
breaks out of the loop (collecting articles only for a 200). -/
def fetchGlobalLoop (resp : String → KeyResp) :
    List String → Bool × List Article × List String
  | [] => (true, [], [])
  | k :: rest =>
    if k = "" then fetchGlobalLoop resp rest
    else
      match resp k with
      | .rate429 =>
        let r := fetchGlobalLoop resp rest
        (r.1, r.2.1, k :: r.2.2)
      | .netError =>
        let r := fetchGlobalLoop resp rest
        (r.1, r.2.1, k :: r.2.2)
      | .badStatus _ => (false, [], [k])
      | .okResp items => (false, items, [k])

/-- One step of the URL deduplication pass (`seen_urls` loops): articles
with an empty (falsy) or already-seen url are dropped, order otherwise
preserved. -/
def dedupeStep (st : List Article × List String) (a : Article) :
    List Article × List String :=
  if a.url = "" ∨ st.2.contains a.url then st
  else (st.1 ++ [a], st.2 ++ [a.url])

/-- Embedding of the URL deduplication pass used by the aggregator. -/
def dedupeByUrl (collected : List Article) : List Article :=
  (collected.foldl dedupeStep ([], [])).1

/-- Comparator for `unique_articles.sort(key=lambda x: x.get("published_at", ""), reverse=True)`. -/
def pubGe (x y : Article) : Bool :=
  decide (y.published_at ≤ x.published_at)

/-- Embedding of `NewsAggregator._fetch_global_articles` (state in,
state out).  If the rate-limited flag is already set the call returns
immediately with no requests; otherwise the key-rotation loop runs, and
if every key ended in 429/error the flag is set and the result is empty;
on success the collected articles are URL-deduplicated, sorted by
`published_at` descending and truncated to `count`. -/
def fetch_global (st : AggState) (keys : List String) (resp : String → KeyResp)
    (count : Nat) : AggState × List Article × List String :=
  if st.newsapi_rate_limited then (st, [], [])
  else
    let r := fetchGlobalLoop resp keys
    if r.1 then ({ newsapi_rate_limited := true }, [], r.2.2)
    else (st, (sortDesc pubGe (dedupeByUrl r.2.1)).take count, r.2.2)

/-- Embedding of `NewsAggregator._fetch_local_headlines`: identical
structure, except that a missing (falsy) country also short-circuits to
an empty result before any request. -/
def fetch_local (st : AggState) (keys : List String) (resp : String → KeyResp)
    (count : Nat) (country : String) : AggState × List Article × List String :=
  if st.newsapi_rate_limited ∨ country = "" then (st, [], [])
  else
    let r := fetchGlobalLoop resp keys
    if r.1 then ({ newsapi_rate_limited := true }, [], r.2.2)
    else (st, (sortDesc pubGe (dedupeByUrl r.2.1)).take count, r.2.2)

/-- Embedding of the merge/dedupe tail of `NewsAggregator.fetch_articles`
(the non-legacy path): the articles collected over all topics are
URL-deduplicated, sorted by `published_at` descending and truncated to
`max 1 (count * 2)`. -/
def fetch_articles_post (collected : List Article) (count : Nat) : List Article :=
  (sortDesc pubGe (dedupeByUrl collected)).take (max 1 (count * 2))

/-! ## JSON repair fallback (`backend/utils/json_repair.py`) -/

/-- Python regex `\s` over the ASCII range: space, tab, newline, carriage
return, vertical tab, form feed. -/
def isPyWs (c : Char) : Bool :=
  c == ' ' || c == '\t' || c == '\n' || c == '\r' ||
    c == Char.ofNat 11 || c == Char.ofNat 12

/-- First repair step of the fallback `jsonrepair`: `text.replace("'", '"')`. -/
def quoteFix (l : List Char) : List Char :=
  l.map fun c => if c = squote then dquote else c

/-- Second repair step of the fallback `jsonrepair`:
`re.sub(r",\s*([}\]])", r"\1", text)`.  The scan is left to right and
non-overlapping: at a comma followed by (maximal) whitespace and a
closing brace/bracket, the comma and whitespace are dropped and scanning
resumes after the kept brace.  Fuel-indexed for structural recursion;
every call consumes at least one character, so `l.length` fuel always
suffices. -/
def commaRemovalGo : Nat → List Char → List Char
  | 0, l => l
  | _ + 1, [] => []
  | fuel + 1, c :: rest =>
    if c = ',' then
      match rest.dropWhile isPyWs with
      | [] => c :: commaRemovalGo fuel rest
      | b :: tail =>
        if b = rbrace ∨ b = rbrack then b :: commaRemovalGo fuel tail
        else c :: commaRemovalGo fuel rest
    else c :: commaRemovalGo fuel rest

def commaRemoval (l : List Char) : List Char :=
  commaRemovalGo l.length l

/-- Embedding of the fallback `jsonrepair` (json_repair.py, lines 70-83):
replace single quotes by double quotes, then remove trailing commas
before closing braces/brackets. -/
def jsonrepair (s : String) : String :=
  String.mk (commaRemoval (quoteFix s.toList))

/-- Embedding of the brace-boundary extraction in the fallback `loads`:
slice from the first `{` to the last `}` when both exist in that order,
otherwise leave the text unchanged. -/
def extractBraces (s : String) : String :=
  let cs := s.toList
  match cs.findIdx? (· = lbrace), cs.reverse.findIdx? (· = rbrace) with
  | some i, some j' =>
    let j := cs.length - 1 - j'
    if i < j then String.mk ((cs.drop i).take (j - i + 1)) else s
  | _, _ => s

/-- JSON whitespace accepted by Python's `json.loads` between tokens. -/
def jsonWsChar (c : Char) : Bool :=
  c == ' ' || c == '\t' || c == '\n' || c == '\r'

def skipJsonWs (l : List Char) : List Char := l.dropWhile jsonWsChar

def isHexChar (c : Char) : Bool :=
  c.isDigit || (97 ≤ c.toNat && c.toNat ≤ 102) || (65 ≤ c.toNat && c.toNat ≤ 70)

/-- Modelled from the spec / Python stdlib collaborator: string-body
scanner of `json.loads` (called after the opening double quote), used
only to decide decode success.  Accepts escape sequences and rejects
raw control characters, per the strict default decoder. -/
def parseJString : List Char → Option (List Char)
  | [] => none
  | c :: rest =>
    if c = dquote then some rest
    else if c = bslash then
      match rest with
      | [] => none
      | e :: rest2 =>
        if e = dquote ∨ e = bslash ∨ e = '/' ∨ e = 'b' ∨ e = 'f' ∨ e = 'n'
            ∨ e = 'r' ∨ e = 't' then
          parseJString rest2
        else if e = 'u' then
          match rest2 with
          | h1 :: h2 :: h3 :: h4 :: rest6 =>
            if isHexChar h1 && isHexChar h2 && isHexChar h3 && isHexChar h4 then
              parseJString rest6
            else none
          | _ => none
        else none
    else if c.toNat < 32 then none
    else parseJString rest

def parseDigitRun (l : List Char) : Option (List Char) :=
  if (l.takeWhile Char.isDigit).isEmpty then none
  else some (l.dropWhile Char.isDigit)

def parseFrac (l : List Char) : Option (List Char) :=
  match l with
  | c :: rest => if c = '.' then parseDigitRun rest else some l
  | [] => some l

def parseExp (l : List Char) : Option (List Char) :=
  match l with
  | e :: rest =>
    if e = 'e' ∨ e = 'E' then
      match rest with
      | s :: rest2 =>
        if s = '+' ∨ s = '-' then parseDigitRun rest2 else parseDigitRun rest
      | [] => none
    else some l
  | [] => some l

/-- Number grammar of the Python decoder:
`-?(0|[1-9][0-9]*)(\.[0-9]+)?([eE][+-]?[0-9]+)?`. -/
def parseNumber (l : List Char) : Option (List Char) :=
  let afterSign := match l with
    | c :: rest => if c = '-' then rest else l
    | [] => l
  match afterSign with
  | d :: rest =>
    if d = '0' then parseFrac rest >>= parseExp
    else if d.isDigit then parseFrac (rest.dropWhile Char.isDigit) >>= parseExp
    else none
  | [] => none

/-- Parser position for `parseJ`: scanning a value, the member list of an
object (after `{` or a member comma), or the element list of an array
(after `[` or an element comma); `allowClose` is true only directly
after the opening bracket, matching Python's rejection of trailing
commas. -/
inductive PMode where
  | value
  | objBody (allowClose : Bool)
  | arrBody (allowClose : Bool)
deriving DecidableEq, Repr

/-- Modelled from the spec / Python stdlib collaborator: the scanner of
`json.loads`, deciding whether a well-formed construct starts here and
returning the unconsumed remainder.  Fuel decreases at every nesting and
iteration step; each such step consumes at least one character, so the
initial fuel in `pyJsonValid` always suffices. -/
def parseJ : Nat → PMode → List Char → Option (List Char)
  | 0, _, _ => none
  | fuel + 1, .value, l =>
    let l1 := skipJsonWs l
    match l1 with
    | [] => none
    | c :: rest =>
      if c = lbrace then parseJ fuel (.objBody true) rest
      else if c = lbrack then parseJ fuel (.arrBody true) rest
      else if c = dquote then parseJString rest
      else if l1.take 4 = "true".toList then some (l1.drop 4)
      else if l1.take 5 = "false".toList then some (l1.drop 5)
      else if l1.take 4 = "null".toList then some (l1.drop 4)
      else if l1.take 3 = "NaN".toList then some (l1.drop 3)
      else if l1.take 8 = "Infinity".toList then some (l1.drop 8)
      else if l1.take 9 = "-Infinity".toList then some (l1.drop 9)
      else parseNumber l1
  | fuel + 1, .objBody allowClose, l =>
    match skipJsonWs l with
    | [] => none
    | c :: rest =>
      if c = rbrace ∧ allowClose then some rest
      else if c = dquote then
        match parseJString rest with
        | none => none
        | some afterKey =>
          match skipJsonWs afterKey with
          | c2 :: rest2 =>
            if c2 = ':' then
              match parseJ fuel .value rest2 with
              | none => none
              | some afterVal =>
                match skipJsonWs afterVal with
                | c3 :: rest3 =>
                  if c3 = ',' then parseJ fuel (.objBody false) rest3
                  else if c3 = rbrace then some rest3
                  else none
                | [] => none
            else none
          | [] => none
      else none
  | fuel + 1, .arrBody allowClose, l =>
    match skipJsonWs l with
    | [] => none
    | c :: rest =>
      if c = rbrack ∧ allowClose then some rest
      else
        match parseJ fuel .value (c :: rest) with
        | none => none
        | some afterVal =>
          match skipJsonWs afterVal with
          | c2 :: rest2 =>
            if c2 = ',' then parseJ fuel (.arrBody false) rest2
            else if c2 = rbrack then some rest2
            else none
          | [] => none

/-- Modelled from the spec / Python stdlib collaborator: whether
`json.loads` succeeds on `s` (a whole JSON document, allowing trailing
whitespace). -/
def pyJsonValid (s : String) : Bool :=
  match parseJ (s.length + 1) .value s.toList with
  | some rest => (skipJsonWs rest).isEmpty
  | none => false

/-- Embedding of the fallback `loads` (json_repair.py, lines 85-100):
strip, slice between the outermost braces, repair, then decode.  Decoding
is modelled by `pyJsonValid`: `some repaired` stands for a successful
`json.loads` (the decoded object itself is not modelled), `none` for the
raised `JSONDecodeError`. -/
def loads_fallback (s : String) : Option String :=
  let raw := extractBraces (pyStrip s)
  let repaired := jsonrepair raw
  if pyJsonValid repaired then some repaired else none

/-! ## Generic fold invariants -/

theorem foldl_invariant {α β : Type _} (P : β → Prop) (f : β → α → β)
    (l : List α) (init : β) (h0 : P init)
    (hstep : ∀ b a, P b → P (f b a)) : P (l.foldl f init) := by
  induction l generalizing init with
  | nil => exact h0
  | cons a as ih => exact ih (f init a) (hstep init a h0)

theorem foldl_invariant_mem {α β : Type _} (P : β → Prop) (f : β → α → β) :
    ∀ (l : List α) (init : β), P init →
      (∀ b a, a ∈ l → P b → P (f b a)) → P (l.foldl f init)
  | [], _, h0, _ => h0
  | a :: as, init, h0, hstep =>
    foldl_invariant_mem P f as (f init a)
      (hstep init a (List.mem_cons_self a as) h0)
      (fun b y hy hb => hstep b y (List.mem_cons_of_mem a hy) hb)

/-! ## Invariants of the validation loop -/

theorem acceptStep_mem {parseDate : String → Option Int} {now : Int}
    {topics : List String} {desired : Nat} {acc : List Article} {a x : Article}
    (hx : x ∈ acceptStep parseDate now topics desired acc a) :
    x ∈ acc ∨ (x = a ∧ a.url ≠ "" ∧ normTitle a.title ≠ "" ∧
      (∀ e ∈ acc, ¬ normTitle e.title = normTitle a.title) ∧
      is_article_relevant a topics = true ∧
      is_recent_article parseDate now a = true) := by
  unfold acceptStep at hx
  split_ifs at hx with h1 h2 h3 h4 h5 h6
  all_goals try exact .inl hx
  rcases List.mem_append.mp hx with h | h
  · exact .inl h
  · have hxa : x = a := by simpa using h
    refine .inr ⟨hxa, h2, h3, ?_, h5, h6⟩
    intro e he heq
    exact h4 (List.any_eq_true.mpr ⟨e, he, by simpa using heq⟩)

theorem processBatch_mem {parseDate : String → Option Int} {now : Int}
    {topics : List String} {desired : Nat} {valid raw : List Article}
    {x : Article}
    (hx : x ∈ processBatch parseDate now topics desired valid raw) :
    x ∈ valid ∨ (x.url ≠ "" ∧ normTitle x.title ≠ "" ∧
      is_article_relevant x topics = true ∧
      is_recent_article parseDate now x = true) := by
  have h := foldl_invariant
    (fun b => ∀ y ∈ b, y ∈ valid ∨ (y.url ≠ "" ∧ normTitle y.title ≠ "" ∧
      is_article_relevant y topics = true ∧
      is_recent_article parseDate now y = true))
    (acceptStep parseDate now topics desired) raw valid
    (fun y hy => .inl hy)
    (fun b a hb y hy => by
      rcases acceptStep_mem hy with hyb | ⟨rfl, hu, ht, _, hrel, hrec⟩
      · exact hb y hyb
      · exact .inr ⟨hu, ht, hrel, hrec⟩)
  exact h x hx

theorem acceptStep_title_pairwise {parseDate : String → Option Int}
    {now : Int} {topics : List String} {desired : Nat}
    {acc : List Article} {a : Article}
    (h : acc.Pairwise (fun x y : Article => ¬ normTitle x.title = normTitle y.title)) :
    (acceptStep parseDate now topics desired acc a).Pairwise
      (fun x y : Article => ¬ normTitle x.title = normTitle y.title) := by
  unfold acceptStep
  split_ifs with h1 h2 h3 h4 h5 h6
  all_goals try exact h
  refine List.pairwise_append.mpr ⟨h, List.pairwise_singleton _ _, ?_⟩
  intro x hxacc y hy heq
  have hya : y = a := by simpa using hy
  subst hya
  exact h4 (List.any_eq_true.mpr ⟨x, hxacc, by simpa using heq⟩)

theorem processBatch_title_pairwise {parseDate : String → Option Int}
    {now : Int} {topics : List String} {desired : Nat}
    {valid raw : List Article}
    (h : valid.Pairwise (fun x y : Article => ¬ normTitle x.title = normTitle y.title)) :
    (processBatch parseDate now topics desired valid raw).Pairwise
      (fun x y : Article => ¬ normTitle x.title = normTitle y.title) :=
  foldl_invariant
    (fun b => b.Pairwise (fun x y : Article => ¬ normTitle x.title = normTitle y.title))
    (acceptStep parseDate now topics desired) raw valid h
    (fun _ _ hb => acceptStep_title_pairwise hb)

theorem fetchLoop_mem {parseDate : String → Option Int} {now : Int}
    {fetch : Nat → Nat → Option (List Article)} {topics : List String}
    {desired : Nat} {x : Article}
    (hx : x ∈ (fetchLoop parseDate now fetch topics desired).1) :
    x.url ≠ "" ∧ normTitle x.title ≠ "" ∧
      is_article_relevant x topics = true ∧
      is_recent_article parseDate now x = true := by
  have h := foldl_invariant
    (fun (st : List Article × List FetchCall) =>
      ∀ y ∈ st.1, y.url ≠ "" ∧ normTitle y.title ≠ "" ∧
        is_article_relevant y topics = true ∧
        is_recent_article parseDate now y = true)
    (fetchStep parseDate now fetch topics desired) (List.range max_attempts)
    ([], [])
    (by intro y hy; cases hy)
    (fun st att hst => by
      intro y hy
      simp only [fetchStep] at hy
      split_ifs at hy with h1 h2
      · exact hst y hy
      · split at hy
        · exact hst y hy
        · rcases processBatch_mem hy with h | h
          · exact hst y h
          · exact h
      · split at hy
        · exact hst y hy
        · rcases processBatch_mem hy with h | h
          · exact hst y h
          · exact h)
  exact h x hx

theorem fetchLoop_title_pairwise {parseDate : String → Option Int} {now : Int}
    {fetch : Nat → Nat → Option (List Article)} {topics : List String}
    {desired : Nat} :
    (fetchLoop parseDate now fetch topics desired).1.Pairwise
      (fun x y : Article => ¬ normTitle x.title = normTitle y.title) := by
  have h := foldl_invariant
    (fun (st : List Article × List FetchCall) =>
      st.1.Pairwise (fun x y : Article => ¬ normTitle x.title = normTitle y.title))
    (fetchStep parseDate now fetch topics desired) (List.range max_attempts)
    ([], [])
    (List.Pairwise.nil)
    (fun st att hst => by
      simp only [fetchStep]
      split_ifs with h1 h2
      · exact hst
      · split
        · exact hst
        · exact processBatch_title_pairwise hst
      · split
        · exact hst
        · exact processBatch_title_pairwise hst)
  exact h

theorem fetchLoop_calls_topics {parseDate : String → Option Int} {now : Int}
    {fetch : Nat → Nat → Option (List Article)} {topics : List String}
    {desired : Nat} {c : FetchCall}
    (hc : c ∈ (fetchLoop parseDate now fetch topics desired).2) :
    c.topics = topics := by
  have h := foldl_invariant
    (fun (st : List Article × List FetchCall) =>
      ∀ d ∈ st.2, FetchCall.topics d = topics)
    (fetchStep parseDate now fetch topics desired) (List.range max_attempts)
    ([], [])
    (by intro d hd; cases hd)
    (fun st att hst => by
      intro d hd
      simp only [fetchStep] at hd
      split_ifs at hd with h1 h2
      · exact hst d hd
      all_goals
        split at hd
      all_goals
        rcases List.mem_append.mp hd with h | h
      · exact hst d h
      · simp only [List.mem_singleton] at h
        subst h
        rfl
      · exact hst d h
      · simp only [List.mem_singleton] at h
        subst h
        rfl
      · exact hst d h
      · simp only [List.mem_singleton] at h
        subst h
        rfl
      · exact hst d h
      · simp only [List.mem_singleton] at h
        subst h
        rfl)
  exact h c hc

theorem dedupeByUrl_pairwise (collected : List Article) :
    (dedupeByUrl collected).Pairwise (fun x y : Article => x.url ≠ y.url) := by
  have h := foldl_invariant
    (fun (st : List Article × List String) =>
      st.1.Pairwise (fun x y : Article => x.url ≠ y.url) ∧
        ∀ x ∈ st.1, x.url ∈ st.2)
    dedupeStep collected ([], [])
    ⟨List.Pairwise.nil, by intro x hx; cases hx⟩
    (fun st a hst => by
      unfold dedupeStep
      split_ifs with hc
      · exact hst
      · rcases not_or.mp hc with ⟨hne, hnc⟩
        constructor
        · refine List.pairwise_append.mpr ⟨hst.1, List.pairwise_singleton _ _, ?_⟩
          intro x hx y hy
          have hya : y = a := by simpa using hy
          subst hya
          intro heq
          exact hnc (List.elem_iff.mpr (heq ▸ hst.2 x hx))
        · intro x hx
          rcases List.mem_append.mp hx with h | h
          · exact List.mem_append_left _ (hst.2 x h)
          · have hxa : x = a := by simpa using h
            subst hxa
            exact List.mem_append_right _ (List.mem_singleton_self _))
  exact h.1

theorem fetch_articles_post_url_pairwise (collected : List Article)
    (count : Nat) :
    (fetch_articles_post collected count).Pairwise
      (fun x y : Article => x.url ≠ y.url) := by
  have hd := dedupeByUrl_pairwise collected
  have hs : (sortDesc pubGe (dedupeByUrl collected)).Pairwise
      (fun x y : Article => x.url ≠ y.url) :=
    ((sortDesc_perm pubGe (dedupeByUrl collected)).pairwise_iff
      (fun hxy => Ne.symm hxy)).mpr hd
  exact hs.sublist (List.take_sublist _ _)

theorem generate_news_validArticles_mem {parseDate : String → Option Int}
    {now : Int} {sel : List String → String → List String → List Source}
    {fetch : Nat → Nat → Option (List Article)}
    {rank : List Article → List String → List Article}
    {topics : List String} {region : String} {excluded : List String}
    {desired : Nat} {x : Article}
    (hx : x ∈ (generate_news parseDate now sel fetch rank topics region
        excluded desired).validArticles) :
    x ∈ (fetchLoop parseDate now fetch (transformTopics topics) desired).1 := by
  simp only [generate_news] at hx
  split_ifs at hx with h1 h2
  · simp at hx
  · exact hx
  · exact hx

/-! ## Concrete instantiations used by counterexamples and witnesses -/

/-- A date parser for examples: only the string `"d"` parses. -/
def cParse : String → Option Int := fun s => if s = "d" then some 0 else none

def cSelect : List String → String → List String → List Source :=
  fun _ _ _ => fallbackBaseSources

def cRank : List Article → List String → List Article := fun l _ => l

def cArticleA : Article :=
  { title := "News one", content := "about news", url := "http://u",
    source := "s", published_at := "d" }

def cArticleB : Article :=
  { title := "News two", content := "more news", url := "http://u",
    source := "s", published_at := "d" }

/-- Two single-article batches carrying the same url under different
titles. -/
def cFetchDup : Nat → Nat → Option (List Article) :=
  fun att _ =>
    if att = 0 then some [cArticleA]
    else if att = 1 then some [cArticleB] else some []

def cFetchEmpty : Nat → Nat → Option (List Article) := fun _ _ => some []

def cArticleML : Article :=
  { title := "Advances in machine learning", content := "research summary",
    url := "http://ml", source := "s", published_at := "d" }

def cFetchML : Nat → Nat → Option (List Article) :=
  fun att _ => if att = 0 then some [cArticleML] else some []

def cArticleNoDate : Article :=
  { title := "No date", content := "news today", url := "http://nd",
    source := "s", published_at := "" }

def cFetchND : Nat → Nat → Option (List Article) :=
  fun att _ => if att = 0 then some [cArticleNoDate] else some []

/-! ## Claims -/

/-- **C1, counterexample.**  The claim predicts an explicit empty success
result (`ok [] 0`) when zero valid articles remain; the code instead
raises `HTTPException(404, "No valid articles found for the specified
criteria")` (routes.py lines 196-197).  With every fetch returning an
empty batch, `generate_news` produces that 404 error and not the empty
success result. -/
theorem c1_counterexample :
    (generate_news cParse 0 cSelect cFetchEmpty cRank ["ai"] "international"
        [] 5).result
      = PipelineResult.httpError 404
          "No valid articles found for the specified criteria"
    ∧ (generate_news cParse 0 cSelect cFetchEmpty cRank ["ai"] "international"
        [] 5).result
      ≠ PipelineResult.ok [] 0 := by
  constructor
  · decide
  · decide

/-- **C1, amended.**  If zero valid articles remain after all fetch
attempts (and source selection returned a nonempty list), the pipeline
entry point raises HTTP 404 "No valid articles found for the specified
criteria" — an error response, not an empty success result. -/
theorem c1_amended (parseDate : String → Option Int) (now : Int)
    (sel : List String → String → List String → List Source)
    (fetch : Nat → Nat → Option (List Article))
    (rank : List Article → List String → List Article)
    (topics : List String) (region : String) (excluded : List String)
    (desired : Nat)
    (hsel : sel (transformTopics topics) region excluded ≠ [])
    (hempty : (generate_news parseDate now sel fetch rank topics region
        excluded desired).validArticles = []) :
    (generate_news parseDate now sel fetch rank topics region excluded
        desired).result
      = PipelineResult.httpError 404
          "No valid articles found for the specified criteria" := by
  simp only [generate_news] at hempty ⊢
  split_ifs at hempty ⊢ with h1 h2
  · exact absurd (by simpa using h1) hsel
  · rfl
  · exact absurd (by simpa using hempty) h2

theorem c1_amended_witness :
    (generate_news cParse 0 cSelect cFetchEmpty cRank ["sports"]
        "international" [] 5).result
      = PipelineResult.httpError 404
          "No valid articles found for the specified criteria" :=
  c1_amended cParse 0 cSelect cFetchEmpty cRank ["sports"] "international"
    [] 5 (by decide) (by decide)

/-- **C2, counterexample.**  `generate_news` dedupes its accepted set only
on normalized titles (routes.py line 184); with one batch per attempt
carrying the same url under different titles, both articles are
accepted, so `valid_articles` holds two articles with the same url. -/
theorem c2_counterexample :
    ((generate_news cParse 0 cSelect cFetchDup cRank ["news"] "international"
        [] 5).validArticles.map (fun a => a.url)) = ["http://u", "http://u"]
    ∧ ¬ (generate_news cParse 0 cSelect cFetchDup cRank ["news"]
        "international" [] 5).validArticles.Pairwise
          (fun x y => x.url ≠ y.url) := by
  constructor
  · decide
  · decide

/-- **C2, amended.**  The orchestrator's accepted set (`valid_articles`)
has pairwise distinct case-normalized titles, but urls are deduplicated
only within a single `fetch_articles` batch
(news_aggregator.py lines 470-481), whose output has pairwise distinct
urls; duplicate urls can survive across attempts (see the
counterexample). -/
theorem c2_amended :
    (∀ (parseDate : String → Option Int) (now : Int)
      (sel : List String → String → List String → List Source)
      (fetch : Nat → Nat → Option (List Article))
      (rank : List Article → List String → List Article)
      (topics : List String) (region : String) (excluded : List String)
      (desired : Nat),
      (generate_news parseDate now sel fetch rank topics region excluded
          desired).validArticles.Pairwise
        (fun x y : Article => ¬ normTitle x.title = normTitle y.title))
    ∧ (∀ (collected : List Article) (count : Nat),
      (fetch_articles_post collected count).Pairwise
        (fun x y : Article => x.url ≠ y.url)) := by
  constructor
  · intro parseDate now sel fetch rank topics region excluded desired
    simp only [generate_news]
    split_ifs with h1 h2
    · simp
    · exact fetchLoop_title_pairwise
    · exact fetchLoop_title_pairwise
  · intro collected count
    exact fetch_articles_post_url_pairwise collected count

/-- **C6, confirmed.**  Every article accepted into the pipeline's valid
set was published within the 7-day recency window (its `published_at`
parses to some `dt` with `now - dt ≤ 7 days`), and any article whose
`published_at` is missing (empty) or unparseable is excluded. -/
theorem c6_recency_invariant (parseDate : String → Option Int) (now : Int)
    (sel : List String → String → List String → List Source)
    (fetch : Nat → Nat → Option (List Article))
    (rank : List Article → List String → List Article)
    (topics : List String) (region : String) (excluded : List String)
    (desired : Nat) (a : Article) :
    (a ∈ (generate_news parseDate now sel fetch rank topics region excluded
        desired).validArticles →
      a.published_at ≠ "" ∧
        ∃ dt, parseDate a.published_at = some dt ∧ now - dt ≤ seven_days)
    ∧ ((a.published_at = "" ∨ parseDate a.published_at = none) →
      a ∉ (generate_news parseDate now sel fetch rank topics region excluded
        desired).validArticles) := by
  have key : ∀ (ha : a ∈ (generate_news parseDate now sel fetch rank topics
      region excluded desired).validArticles),
      a.published_at ≠ "" ∧
        ∃ dt, parseDate a.published_at = some dt ∧ now - dt ≤ seven_days := by
    intro ha
    have h := (fetchLoop_mem (generate_news_validArticles_mem ha)).2.2.2
    unfold is_recent_article at h
    by_cases hp : a.published_at = ""
    · rw [if_pos hp] at h
      exact absurd h (by simp)
    · rw [if_neg hp] at h
      refine ⟨hp, ?_⟩
      rcases hm : parseDate a.published_at with _ | dt
      · rw [hm] at h
        exact absurd h (by simp)
      · rw [hm] at h
        simp only [decide_eq_true_eq] at h
        exact ⟨dt, rfl, by unfold seven_days at h ⊢; omega⟩
  constructor
  · exact key
  · intro hbad ha
    rcases key ha with ⟨hne, dt, hdt, _⟩
    rcases hbad with hb | hb
    · exact hne hb
    · rw [hb] at hdt
      cases hdt

theorem c6_witness :
    (cArticleML.published_at ≠ "" ∧
      ∃ dt, cParse cArticleML.published_at = some dt ∧
        (0 : Int) - dt ≤ seven_days)
    ∧ cArticleNoDate ∉ (generate_news cParse 0 cSelect cFetchND cRank
        ["news"] "international" [] 5).validArticles := by
  constructor
  · exact (c6_recency_invariant cParse 0 cSelect cFetchML cRank ["ai"]
      "international" [] 5 cArticleML).1 (by decide)
  · exact (c6_recency_invariant cParse 0 cSelect cFetchND cRank ["news"]
      "international" [] 5 cArticleNoDate).2 (Or.inl rfl)

/-- **C7, confirmed.**  Every article accepted into the pipeline's valid
set contains, in the lower-cased `title ++ " " ++ content`, at least one
requested topic (lower-cased, trimmed) or a registered synonym of it —
in particular topic "ai" is matched through the synonym table, which
maps both "ai" and "artificial intelligence" to the same synonyms
(including "machine learning"); with an empty topic list every article
passes the relevance check. -/
theorem c7_relevance_invariant (parseDate : String → Option Int) (now : Int)
    (sel : List String → String → List String → List Source)
    (fetch : Nat → Nat → Option (List Article))
    (rank : List Article → List String → List Article)
    (topics : List String) (region : String) (excluded : List String)
    (desired : Nat) (a : Article) :
    (a ∈ (generate_news parseDate now sel fetch rank topics region excluded
        desired).validArticles → topics ≠ [] →
      ∃ t ∈ topics,
        ∃ syn ∈ (synonym_map (pyStrip (pyLower t))).getD
            [pyStrip (pyLower t)],
          strContainsSub (pyLower (a.title ++ " " ++ a.content)) syn = true)
    ∧ (∀ b : Article, is_article_relevant b [] = true) := by
  constructor
  · intro ha htopics
    have hrel := (fetchLoop_mem (generate_news_validArticles_mem ha)).2.2.1
    unfold is_article_relevant at hrel
    have hne : (transformTopics topics).isEmpty = false := by
      cases topics with
      | nil => exact absurd rfl htopics
      | cons t ts => rfl
    rw [hne] at hrel
    simp only [Bool.false_eq_true, if_false] at hrel
    rcases List.any_eq_true.mp hrel with ⟨t1, ht1, hbody⟩
    by_cases hblank : pyStrip (pyLower t1) = ""
    · rw [if_pos hblank] at hbody
      exact absurd hbody (by simp)
    · rw [if_neg hblank] at hbody
      rcases List.any_eq_true.mp hbody with ⟨syn, hsyn, hcont⟩
      rcases List.mem_map.mp ht1 with ⟨t, ht, htt⟩
      refine ⟨t, ht, syn, ?_, hcont⟩
      by_cases hai : pyStrip (pyLower t) = "ai"
      · rw [if_pos hai] at htt
        rw [hai]
        subst htt
        have h1 : pyStrip (pyLower "artificial intelligence")
            = "artificial intelligence" := by decide
        rw [h1] at hsyn
        have h2 : (synonym_map "artificial intelligence").getD
              ["artificial intelligence"]
            = (synonym_map "ai").getD ["ai"] := by decide
        rw [h2] at hsyn
        exact hsyn
      · rw [if_neg hai] at htt
        subst htt
        exact hsyn
  · intro b
    rfl

theorem c7_witness :
    ∃ t ∈ ["ai"],
      ∃ syn ∈ (synonym_map (pyStrip (pyLower t))).getD [pyStrip (pyLower t)],
        strContainsSub
          (pyLower (cArticleML.title ++ " " ++ cArticleML.content)) syn
          = true :=
  (c7_relevance_invariant cParse 0 cSelect cFetchML cRank ["ai"]
    "international" [] 5 cArticleML).1 (by decide) (by decide)

/-- **C10, confirmed.**  The topic list handed to source selection, to
every article-fetch call and to the relevance filter is the transformed
list (each topic whose lower-cased trimmed form is "ai" replaced by
"artificial intelligence"), while the ranking stage receives the
original, untransformed topic list. -/
theorem c10_topic_transform (parseDate : String → Option Int) (now : Int)
    (sel : List String → String → List String → List Source)
    (fetch : Nat → Nat → Option (List Article))
    (rank : List Article → List String → List Article)
    (topics : List String) (region : String) (excluded : List String)
    (desired : Nat) :
    (generate_news parseDate now sel fetch rank topics region excluded
        desired).sourceTopics = transformTopics topics
    ∧ (generate_news parseDate now sel fetch rank topics region excluded
        desired).relevanceTopics = transformTopics topics
    ∧ (∀ c ∈ (generate_news parseDate now sel fetch rank topics region
        excluded desired).fetchCalls, c.topics = transformTopics topics)
    ∧ (∀ ts, (generate_news parseDate now sel fetch rank topics region
        excluded desired).rankTopics = some ts → ts = topics)
    ∧ transformTopics topics = topics.map
        (fun t => if pyStrip (pyLower t) = "ai"
          then "artificial intelligence" else t) := by
  simp only [generate_news]
  split_ifs with h1 h2
  · refine ⟨rfl, rfl, ?_, ?_, rfl⟩
    · intro c hc
      cases hc
    · intro ts hts
      cases hts
  · refine ⟨rfl, rfl, ?_, ?_, rfl⟩
    · intro c hc
      exact fetchLoop_calls_topics hc
    · intro ts hts
      cases hts
  · refine ⟨rfl, rfl, ?_, ?_, rfl⟩
    · intro c hc
      exact fetchLoop_calls_topics hc
    · intro ts hts
      cases hts
      rfl

theorem c10_witness :
    (generate_news cParse 0 cSelect cFetchML cRank ["ai"] "international"
        [] 5).sourceTopics = transformTopics ["ai"]
    ∧ ["ai"] = ["ai"] := by
  refine ⟨(c10_topic_transform cParse 0 cSelect cFetchML cRank ["ai"]
    "international" [] 5).1, ?_⟩
  exact (c10_topic_transform cParse 0 cSelect cFetchML cRank ["ai"]
    "international" [] 5).2.2.2.1 ["ai"] (by decide)

theorem fallback_score_bounds (a : Article) (topics : List String) :
    1 ≤ fallback_score a topics ∧ fallback_score a topics ≤ 100 := by
  simp only [fallback_score]
  have hc : (0 : Int) ≤ (topics.countP fun t =>
      strContainsSub (pyLower (a.title ++ " " ++ a.content)) (pyLower t) : Nat) :=
    Int.natCast_nonneg _
  constructor
  · exact le_min (by linarith) (by norm_num)
  · exact le_trans (min_le_right _ _) (by norm_num)

theorem fallback_scoring_mem_score {articles : List Article}
    {topics : List String} {a : Article}
    (ha : a ∈ fallback_scoring articles topics) :
    ∃ s, a.ai_score = some s ∧ 1 ≤ s ∧ s ≤ 100 := by
  unfold fallback_scoring at ha
  rcases List.mem_map.mp (mem_sortDesc.mp ha) with ⟨b, hb, rfl⟩
  exact ⟨fallback_score b topics, rfl, (fallback_score_bounds b topics).1,
    (fallback_score_bounds b topics).2⟩

def cCfg : LLMConfig := { api_key := "k", model := "m" }

def cOrigT : Article :=
  { title := "t", content := "c", url := "u", source := "s",
    published_at := "d" }

def cRanked150 : RankedRecord := { title := "t", ai_score := some 150 }

def cRanked80 : RankedRecord := { title := "t", ai_score := some 80 }

/-- **C3, counterexample.**  No clamping is applied on the model path of
`analyze_and_rank_articles`: a model response carrying `ai_score = 150`
for a title that matches an original article is merged verbatim, so the
ranked output holds a score outside `[1, 100]`. -/
theorem c3_counterexample :
    ((analyze_and_rank_articles (some cCfg) (some [cRanked150]) [cOrigT]
        ["x"]).map (fun a => a.ai_score)) = [some 150]
    ∧ ¬ ((150 : Int) ≤ 100) := by
  constructor
  · decide
  · decide

/-- **C3, amended.**  On the heuristic fallback path every output
`ai_score` is present and lies in `[1, 100]` (in fact `[50, 90]`);
on the model path scores are copied unclamped from the response, so the
bound holds exactly under the assumption that every score in the model's
response (and every score already present on an input article) lies in
`[1, 100]`. -/
theorem c3_amended :
    (∀ (articles : List Article) (topics : List String) (a : Article),
      a ∈ fallback_scoring articles topics →
        ∃ s, a.ai_score = some s ∧ 1 ≤ s ∧ s ≤ 100)
    ∧ (∀ (config : Option LLMConfig)
        (llmRanked : Option (List RankedRecord))
        (articles : List Article) (topics : List String),
      (∀ b ∈ articles, ∀ s : Int, b.ai_score = some s → 1 ≤ s ∧ s ≤ 100) →
      (∀ rl, llmRanked = some rl → ∀ r ∈ rl, ∀ s : Int,
        RankedRecord.ai_score r = some s → 1 ≤ s ∧ s ≤ 100) →
      ∀ a ∈ analyze_and_rank_articles config llmRanked articles topics,
        ∀ s : Int, a.ai_score = some s → 1 ≤ s ∧ s ≤ 100) := by
  constructor
  · intro articles topics a ha
    exact fallback_scoring_mem_score ha
  · intro config llmRanked articles topics hin hresp a ha s hs
    have hfb : ∀ (b : Article), b ∈ fallback_scoring articles topics →
        b.ai_score = some s → 1 ≤ s ∧ s ≤ 100 := by
      intro b hb hbs
      rcases fallback_scoring_mem_score hb with ⟨s2, hs2, hlo, hhi⟩
      rw [hbs] at hs2
      cases hs2
      exact ⟨hlo, hhi⟩
    unfold analyze_and_rank_articles at ha
    split_ifs at ha with h1 h2
    · exact hfb a ha hs
    · exact hfb a ha hs
    · rcases hr : llmRanked with _ | rl
      · rw [hr] at ha
        exact hfb a ha hs
      · rw [hr] at ha
        have hmem := mem_sortDesc.mp ha
        have key := foldl_invariant_mem
          (fun b => ∀ y ∈ b, ∀ s2 : Int, y.ai_score = some s2 →
            1 ≤ s2 ∧ s2 ≤ 100)
          (fun acc r =>
            match articles.find? (fun a => a.title = r.title) with
            | some original => acc ++ [mergeRanked original r]
            | none => acc)
          rl []
          (by intro y hy; cases hy)
          (fun b r hr2 hb => by
            intro y hy s2 hy2
            simp only [] at hy
            split at hy
            · rename_i original heq
              rcases List.mem_append.mp hy with h | h
              · exact hb y h s2 hy2
              · have hym : y = mergeRanked original r := by simpa using h
                subst hym
                simp only [mergeRanked] at hy2
                rcases hrs : RankedRecord.ai_score r with _ | s3
                · rw [hrs] at hy2
                  simp only at hy2
                  exact hin _ (List.mem_of_find?_eq_some heq) s2 hy2
                · rw [hrs] at hy2
                  simp only [Option.some.injEq] at hy2
                  subst hy2
                  exact hresp rl hr r hr2 s3 hrs
            · exact hb y hy s2 hy2)
        exact key a hmem s hs

theorem c3_amended_witness :
    (mergeRanked cOrigT cRanked80) ∈ analyze_and_rank_articles (some cCfg)
        (some [cRanked80]) [cOrigT] ["x"]
    ∧ ((1 : Int) ≤ 80 ∧ (80 : Int) ≤ 100) := by
  refine ⟨by decide, ?_⟩
  refine c3_amended.2 (some cCfg) (some [cRanked80]) [cOrigT] ["x"]
    ?_ ?_ (mergeRanked cOrigT cRanked80) (by decide) 80 (by decide)
  · intro b hb s hs
    have hb2 : b = cOrigT := by simpa using hb
    subst hb2
    simp [cOrigT] at hs
  · intro rl hrl r hr s hs
    cases hrl
    have hr2 : r = cRanked80 := by simpa using hr
    subst hr2
    have hs80 : s = 80 := by simpa [cRanked80] using hs.symm
    subst hs80
    norm_num

/-- **C5, confirmed.**  With no usable model configuration,
`select_news_sources` returns the static fallback list (the fixed
six-entry base, plus the region-specific entry exactly when the region
is not "international"), and `analyze_and_rank_articles` returns the
heuristically scored input, stable-sorted descending by `ai_score`;
both are total functions of their inputs (they cannot throw). -/
theorem c5_fallback_behavior (config : Option LLMConfig)
    (llmSources : Option (List Source))
    (llmRanked : Option (List RankedRecord))
    (topics : List String) (region : String) (excluded : List String)
    (articles : List Article)
    (hdis : llmDisabled config = true) :
    select_news_sources config llmSources topics region excluded
        = get_fallback_sources topics region
    ∧ get_fallback_sources topics region
        = fallbackBaseSources ++
          (if region = "international" then [] else [localSource region])
    ∧ fallbackBaseSources.length = 6
    ∧ analyze_and_rank_articles config llmRanked articles topics
        = fallback_scoring articles topics
    ∧ List.Perm (fallback_scoring articles topics)
        (articles.map (scoreArticle topics))
    ∧ (fallback_scoring articles topics).Pairwise
        (fun x y => scoreGe x y = true) := by
  refine ⟨?_, ?_, rfl, ?_, ?_, ?_⟩
  · simp [select_news_sources, hdis]
  · by_cases h : region = "international"
    · simp [get_fallback_sources, h]
    · simp [get_fallback_sources, h]
  · simp [analyze_and_rank_articles, hdis, ite_self]
  · exact sortDesc_perm scoreGe (articles.map (scoreArticle topics))
  · refine sortDesc_pairwise scoreGe ?_ ?_ _
    · intro x y
      simp only [scoreGe, decide_eq_true_eq]
      omega
    · intro x y z
      simp only [scoreGe, decide_eq_true_eq]
      omega

theorem c5_witness :
    select_news_sources none none ["ai"] "europe" []
        = get_fallback_sources ["ai"] "europe"
    ∧ analyze_and_rank_articles none none [cOrigT] ["ai"]
        = fallback_scoring [cOrigT] ["ai"] := by
  refine ⟨(c5_fallback_behavior none none none ["ai"] "europe" [] [cOrigT]
    (by decide)).1, ?_⟩
  exact (c5_fallback_behavior none none none ["ai"] "europe" [] [cOrigT]
    (by decide)).2.2.2.1

/-- **C9, counterexample.**  The claim predicts the failure-path summary
always carries a trailing ellipsis marker; for content of at most 40
words the code returns the joined words with no marker
(`"..." if len(words) > 40 else ""`). -/
theorem c9_counterexample :
    generate_article_summary none none "hi" = "hi"
    ∧ generate_article_summary none none "hi"
        ≠ String.intercalate " " ((pyWords "hi").take 40) ++ "..." := by
  constructor
  · decide
  · decide

/-- **C9, amended.**  Whenever the model is unavailable (no
configuration) or the summarization request fails, the summary is the
naive truncation: the first 40 whitespace-separated words joined by
spaces, with "..." appended exactly when the content has more than 40
words; the function is total (never raises). -/
theorem c9_amended (config : Option LLMConfig) (llmText : Option String)
    (content : String)
    (hfail : llmDisabled config = true ∨ llmText = none) :
    generate_article_summary config llmText content = truncate40 content
    ∧ truncate40 content
        = String.intercalate " " ((pyWords content).take 40)
          ++ (if (pyWords content).length > 40 then "..." else "") := by
  constructor
  · unfold generate_article_summary
    rcases hfail with h | h
    · simp [h]
    · subst h
      split_ifs with hd
      · rfl
      · rfl
  · rfl

def cLongContent : String := String.intercalate " " (List.replicate 41 "w")

set_option maxRecDepth 8000 in
theorem c9_amended_witness :
    generate_article_summary none none cLongContent = truncate40 cLongContent
    ∧ truncate40 cLongContent
        = String.intercalate " " ((pyWords cLongContent).take 40) ++ "..." := by
  refine ⟨(c9_amended none none cLongContent (Or.inl rfl)).1, ?_⟩
  rw [(c9_amended none none cLongContent (Or.inl rfl)).2]
  decide

theorem quoteFix_no_squote (l : List Char) : squote ∉ quoteFix l := by
  intro h
  rcases List.mem_map.mp h with ⟨c, hc, hcq⟩
  by_cases hcs : c = squote
  · rw [if_pos hcs] at hcq
    exact absurd hcq (by decide)
  · rw [if_neg hcs] at hcq
    exact hcs hcq

theorem commaRemovalGo_subset {fuel : Nat} {l : List Char} {x : Char}
    (hx : x ∈ commaRemovalGo fuel l) : x ∈ l := by
  induction fuel generalizing l with
  | zero => exact hx
  | succ fuel ih =>
    cases l with
    | nil => exact hx
    | cons c rest =>
      simp only [commaRemovalGo] at hx
      split_ifs at hx with hc
      · split at hx
        · rcases List.mem_cons.mp hx with rfl | h
          · exact List.mem_cons_self _ _
          · exact List.mem_cons_of_mem _ (ih h)
        · rename_i b tail hdw
          split_ifs at hx with hb
          · rcases List.mem_cons.mp hx with rfl | h
            · have hm : x ∈ rest.dropWhile isPyWs := by
                rw [hdw]
                exact List.mem_cons_self _ _
              exact List.mem_cons_of_mem _
                ((List.dropWhile_suffix isPyWs).sublist.mem hm)
            · have hm : x ∈ rest.dropWhile isPyWs := by
                rw [hdw]
                exact List.mem_cons_of_mem _ (ih h)
              exact List.mem_cons_of_mem _
                ((List.dropWhile_suffix isPyWs).sublist.mem hm)
          · rcases List.mem_cons.mp hx with rfl | h
            · exact List.mem_cons_self _ _
            · exact List.mem_cons_of_mem _ (ih h)
      · rcases List.mem_cons.mp hx with rfl | h
        · exact List.mem_cons_self _ _
        · exact List.mem_cons_of_mem _ (ih h)

theorem quoteFix_eq_of_no_squote : ∀ {l : List Char}, squote ∉ l → quoteFix l = l
  | [], _ => rfl
  | c :: rest, h => by
    have hc : ¬ c = squote := by
      intro hcs
      subst hcs
      exact h (List.mem_cons_self _ _)
    have hrest : quoteFix rest = rest :=
      quoteFix_eq_of_no_squote (fun hm => h (List.mem_cons_of_mem c hm))
    simp only [quoteFix, List.map_cons] at hrest ⊢
    rw [if_neg hc, hrest]

theorem jsonrepair_no_squote (s : String) : squote ∉ (jsonrepair s).toList := by
  intro h
  exact quoteFix_no_squote _
    (commaRemovalGo_subset (by simpa [jsonrepair, commaRemoval] using h))

/-- The text `{'a': 'x,,}'}` (braces and single quotes written via
escapes). -/
def cBadJson : String := "\x7b\x27a\x27: \x27x,,\x7d\x27\x7d"

/-- The text `{'a': 1,}`. -/
def cFixableJson : String := "\x7b\x27a\x27: 1,\x7d"

/-- **C4, counterexample.**  A malformed, repairable input on which the
fallback repair is not idempotent: `cBadJson` is the text
`{'a': 'x,,}'}`.  It is invalid JSON, `loads` succeeds on it (its repair
is the valid document `{"a": "x,}"}`), yet a second repair pass removes
the comma that the first pass left inside the string literal, so
`repair(repair(x)) ≠ repair(x)`. -/
theorem c4_counterexample :
    pyJsonValid cBadJson = false
    ∧ (loads_fallback cBadJson).isSome = true
    ∧ jsonrepair (jsonrepair cBadJson) ≠ jsonrepair cBadJson := by
  refine ⟨by decide, by decide, ?_⟩
  decide

/-- **C4, amended.**  The fallback repair is idempotent on every input
whose repaired form is a fixed point of the trailing-comma-removal pass
(quote replacement is always idempotent); it is not idempotent on all
repairable inputs (see the counterexample).  Unrepairable input — input
whose repaired extraction is not valid JSON — makes `loads` fail with a
decode error (`none`) rather than return a value. -/
theorem c4_amended (x : String) :
    (commaRemoval (jsonrepair x).toList = (jsonrepair x).toList →
      jsonrepair (jsonrepair x) = jsonrepair x)
    ∧ (pyJsonValid (jsonrepair (extractBraces (pyStrip x))) = false →
      loads_fallback x = none) := by
  constructor
  · intro hfix
    have h1 : quoteFix (jsonrepair x).toList = (jsonrepair x).toList :=
      quoteFix_eq_of_no_squote (jsonrepair_no_squote x)
    show String.mk (commaRemoval (quoteFix (jsonrepair x).toList))
      = jsonrepair x
    rw [h1, hfix]
    rfl
  · intro hinvalid
    unfold loads_fallback
    simp [hinvalid]

theorem c4_amended_witness :
    commaRemoval (jsonrepair cFixableJson).toList
        = (jsonrepair cFixableJson).toList
    ∧ jsonrepair (jsonrepair cFixableJson) = jsonrepair cFixableJson
    ∧ pyJsonValid (jsonrepair (extractBraces (pyStrip "not json"))) = false
    ∧ loads_fallback "not json" = none := by
  refine ⟨by decide, (c4_amended cFixableJson).1 (by decide), by decide,
    (c4_amended "not json").2 (by decide)⟩

theorem fetchGlobalLoop_all429 (resp : String → KeyResp) :
    ∀ keys : List String,
      (∀ k ∈ keys, k ≠ "" → resp k = KeyResp.rate429) →
      fetchGlobalLoop resp keys
        = (true, [], keys.filter (fun k => !(k == ""))) := by
  intro keys
  induction keys with
  | nil => intro _; rfl
  | cons k rest ih =>
    intro hall
    have hrest := ih (fun k2 hk2 => hall k2 (List.mem_cons_of_mem _ hk2))
    by_cases hk : k = ""
    · subst hk
      simp only [fetchGlobalLoop, if_pos rfl, hrest]
      simp
    · simp only [fetchGlobalLoop, if_neg hk,
        hall k (List.mem_cons_self _ _) hk, hrest]
      simp [hk]

/-- **C8, confirmed.**  On a run where every configured (nonempty) key
answers 429, `_fetch_global_articles` issues one request per key — the
full rotation — returns no articles, and sets the process-wide
rate-limited flag; and once that flag is set, both `_fetch_global_articles`
and `_fetch_local_headlines` return an empty result immediately, issuing
no request and leaving the state unchanged (so every subsequent fetch
until process restart is skipped too). -/
theorem c8_key_rotation_and_skip :
    (∀ (st : AggState) (keys : List String) (resp : String → KeyResp)
        (count : Nat),
      st.newsapi_rate_limited = false →
      (∀ k ∈ keys, k ≠ "" → resp k = KeyResp.rate429) →
      fetch_global st keys resp count
        = ({ newsapi_rate_limited := true }, [],
            keys.filter (fun k => !(k == ""))))
    ∧ (∀ (st : AggState) (keys : List String) (resp : String → KeyResp)
        (count : Nat) (country : String),
      st.newsapi_rate_limited = true →
      fetch_global st keys resp count = (st, [], [])
      ∧ fetch_local st keys resp count country = (st, [], [])) := by
  constructor
  · intro st keys resp count hst hall
    unfold fetch_global
    simp only [hst, Bool.false_eq_true, if_false]
    rw [fetchGlobalLoop_all429 resp keys hall]
    rfl
  · intro st keys resp count country hst
    constructor
    · unfold fetch_global
      simp [hst]
    · unfold fetch_local
      simp [hst]

def cResp429 : String → KeyResp := fun _ => KeyResp.rate429

theorem c8_witness :
    fetch_global { newsapi_rate_limited := false } ["k1", "k2"] cResp429 5
        = ({ newsapi_rate_limited := true }, [],
            (["k1", "k2"] : List String).filter (fun k => !(k == "")))
    ∧ fetch_global { newsapi_rate_limited := true } ["k1", "k2"] cResp429 5
        = ({ newsapi_rate_limited := true }, [], [])
    ∧ fetch_local { newsapi_rate_limited := true } ["k1", "k2"] cResp429 5
        "US" = ({ newsapi_rate_limited := true }, [], []) := by
  refine ⟨?_, ?_, ?_⟩
  · exact c8_key_rotation_and_skip.1 ⟨false⟩ ["k1", "k2"] cResp429 5 rfl
      (fun k hk hne => rfl)
  · exact (c8_key_rotation_and_skip.2 ⟨true⟩ ["k1", "k2"] cResp429 5 "US"
      rfl).1
  · exact (c8_key_rotation_and_skip.2 ⟨true⟩ ["k1", "k2"] cResp429 5 "US"
      rfl).2

end NewsPipeline
